import Mathlib

/-!
# Verification of the lazy CSV pagination core

Shallow embedding of `src/main.py` (`LazyCSVViewerGUI`). The embedding covers:

* the per-record field splitter of Python's `csv.reader` (default dialect:
  double-quote quoting, doubled-quote escaping, non-strict mode), as a state
  machine over characters;
* `_load_page` as a pure function from (delimiter, page size, page index,
  hidden columns, file contents) to either a format error (empty file: the
  `next(reader)` call for the header fails) or a page result
  `(header, rows, has_next)`, where `rows` are the padded and
  visibility-projected rows inserted into the tree;
* the mutable viewer state (`page_size`, `current_page`, `delimiter`,
  `hidden_columns`, `has_next_page`) and the handlers
  `_on_page_size_changed`, `next_page`, `prev_page`.

A file is modelled as its list of records-as-lines (quoted fields spanning
lines are out of scope, per the spec's non-goals).
-/

set_option autoImplicit false

namespace LazyCsv

/-- The enumerated delimiter set `delimiter_options` of `__init__`:
comma, tab, semicolon, pipe, space. -/
def delimiterOptions : List Char := [',', '\t', ';', '|', ' ']

/-- Parser states of the `csv.reader` field splitter (default dialect):
outside a field, inside an unquoted field, inside a quoted field, and just
after a quote character inside a quoted field. -/
inductive ParseState where
  | startField
  | inField
  | inQuoted
  | quoteInQuoted
  deriving DecidableEq

/-- One record of `csv.reader` with delimiter `d`, quote character `"`,
doubled-quote escaping, non-strict mode: processes the characters of the
line, accumulating the current field and the finished fields. -/
def parseLineAux (d : Char) : List Char → ParseState → List Char → List (List Char) → List (List Char)
  | [], .startField, _, fields => if fields.isEmpty then [] else fields ++ [[]]
  | [], .inField, field, fields => fields ++ [field]
  | [], .inQuoted, field, fields => fields ++ [field]
  | [], .quoteInQuoted, field, fields => fields ++ [field]
  | c :: cs, .startField, _, fields =>
    if c = '"' then parseLineAux d cs .inQuoted [] fields
    else if c = d then parseLineAux d cs .startField [] (fields ++ [[]])
    else parseLineAux d cs .inField [c] fields
  | c :: cs, .inField, field, fields =>
    if c = d then parseLineAux d cs .startField [] (fields ++ [field])
    else parseLineAux d cs .inField (field ++ [c]) fields
  | c :: cs, .inQuoted, field, fields =>
    if c = '"' then parseLineAux d cs .quoteInQuoted field fields
    else parseLineAux d cs .inQuoted (field ++ [c]) fields
  | c :: cs, .quoteInQuoted, field, fields =>
    if c = '"' then parseLineAux d cs .inQuoted (field ++ ['"']) fields
    else if c = d then parseLineAux d cs .startField [] (fields ++ [field])
    else parseLineAux d cs .inField (field ++ [c]) fields

/-- Split one line into its fields under delimiter `d`. -/
def parseLine (d : Char) (cs : List Char) : List (List Char) :=
  parseLineAux d cs .startField [] []

/-- One record yielded by `csv.reader(f, delimiter=d)` for the line `s`. -/
def parseRecord (d : Char) (s : String) : List String :=
  (parseLine d s.data).map (fun cs => String.mk cs)

/-- The sequence of records `csv.reader` yields for the whole file. -/
def parseFile (d : Char) (lines : List String) : List (List String) :=
  lines.map (parseRecord d)

/-- The doubled-quote escaping of the dialect: a quote character inside a
quoted field is written as two quote characters. -/
def escQuote (c : Char) : List Char :=
  if c = '"' then ['"', '"'] else [c]

/-- Field content written with doubled-quote escaping. -/
def encodeContent (cs : List Char) : List Char :=
  cs.bind escQuote

/-- A field written in quoted form: `"` + escaped content + `"`. Such a
field may embed the active delimiter in its content. -/
def encodeField (cs : List Char) : List Char :=
  '"' :: (encodeContent cs ++ ['"'])

/-- A record whose fields are all written in quoted form, joined by the
delimiter `d`. -/
def encodeRecord (d : Char) : List (List Char) → List Char
  | [] => []
  | [f] => encodeField f
  | f :: g :: fs => encodeField f ++ d :: encodeRecord d (g :: fs)

/-- The failure of `_load_page` on an empty file: `header = next(reader)`
finds no record (the spec's `FormatError`). -/
inductive LoadError where
  | formatError
  deriving DecidableEq

/-- The data `_load_page` derives from one scan: the full header, the rows
inserted into the tree for the current page, and the `has_next_page` flag. -/
structure PageResult where
  header : List String
  rows : List (List String)
  hasNext : Bool
  deriving DecidableEq

/-- `visible_columns` of `_load_page`: the indices `i in range(len(header))`
with `i not in self.hidden_columns`, in order. -/
def visibleColumns (header : List String) (hidden : Finset Nat) : List Nat :=
  (List.range header.length).filter (fun i => decide (i ∉ hidden))

/-- The per-row reshaping of `_load_page`: pad the row with empty strings up
to header length (`row + [""] * (len(header) - len(row))`), then keep the
visible columns (`[padded_row[i] for i in visible_columns]`). -/
def projectRow (header : List String) (hidden : Finset Nat) (row : List String) : List String :=
  let padded := row ++ List.replicate (header.length - row.length) ""
  (visibleColumns header hidden).map (fun i => padded.getD i "")

/-- `_load_page`: read the header (error on an empty file), skip
`start = page_index * page_size` records (stopping early at end of file),
collect up to `page_size` records as padded, projected rows, and set
`has_next_page` exactly when a record exists beyond the collected page. -/
def loadPage (delim : Char) (pageSize pageIndex : Nat) (hidden : Finset Nat)
    (file : List String) : Except LoadError PageResult :=
  match parseFile delim file with
  | [] => .error .formatError
  | header :: dataRows =>
    let remaining := dataRows.drop (pageIndex * pageSize)
    .ok ⟨header, (remaining.take pageSize).map (projectRow header hidden),
      decide (pageSize < remaining.length)⟩

/-- The caller-held state of `LazyCSVViewerGUI`: `page_size`,
`current_page`, `delimiter`, `hidden_columns`, `has_next_page`.
Python integers are unbounded, so the two counters are `Int`. -/
structure ViewerState where
  pageSize : Int
  currentPage : Int
  delimiter : Char
  hiddenColumns : Finset Nat
  hasNextPage : Bool
  deriving DecidableEq

/-- The state set in `__init__`: page size 200, page 0, tab delimiter, no
hidden columns, `has_next_page = False`. -/
def initState : ViewerState :=
  ⟨200, 0, '\t', ∅, false⟩

/-- The state effect of `self._load_page()`: on success only
`has_next_page` is updated; on the empty-file failure the exception
propagates before any field is assigned, so the state is unchanged. -/
def loadPageState (file : List String) (s : ViewerState) : ViewerState :=
  match loadPage s.delimiter s.pageSize.toNat s.currentPage.toNat s.hiddenColumns file with
  | .error _ => s
  | .ok r => ⟨s.pageSize, s.currentPage, s.delimiter, s.hiddenColumns, r.hasNext⟩

/-- `_on_page_size_changed`: `int(self.page_size_var.get())` either fails
(`none`, the `ValueError` branch) or yields `n`; only `n > 0` stores the new
page size, resets to page 0 and reloads; otherwise an error box is shown and
nothing changes. Returns the new state and whether an error was signalled. -/
def onPageSizeChanged (file : List String) (input : Option Int) (s : ViewerState) :
    ViewerState × Bool :=
  match input with
  | none => (s, true)
  | some n =>
    if n > 0 then
      (loadPageState file ⟨n, 0, s.delimiter, s.hiddenColumns, s.hasNextPage⟩, false)
    else (s, true)

/-- `next_page`: only when `has_next_page` is set, increment
`current_page` and reload. -/
def nextPage (file : List String) (s : ViewerState) : ViewerState :=
  if s.hasNextPage then
    loadPageState file ⟨s.pageSize, s.currentPage + 1, s.delimiter, s.hiddenColumns, s.hasNextPage⟩
  else s

/-- `prev_page`: only when `current_page > 0`, decrement `current_page`
and reload. -/
def prevPage (file : List String) (s : ViewerState) : ViewerState :=
  if s.currentPage > 0 then
    loadPageState file ⟨s.pageSize, s.currentPage - 1, s.delimiter, s.hiddenColumns, s.hasNextPage⟩
  else s

/-- States reachable from the freshly opened viewer (the `__init__` state
after `open_file` runs its initial `_load_page`) by any sequence of
`next_page` / `prev_page` clicks against a fixed file. -/
inductive Reachable (file : List String) : ViewerState → Prop where
  | init : Reachable file (loadPageState file initState)
  | next {s : ViewerState} : Reachable file s → Reachable file (nextPage file s)
  | prev {s : ViewerState} : Reachable file s → Reachable file (prevPage file s)

end LazyCsv

namespace LazyCsv

/-! ## Helper lemmas -/

theorem loadPage_nil (delim : Char) (pageSize pageIndex : Nat) (hidden : Finset Nat) :
    loadPage delim pageSize pageIndex hidden [] = .error .formatError := rfl

theorem loadPage_cons (delim : Char) (pageSize pageIndex : Nat) (hidden : Finset Nat)
    (line : String) (rest : List String) :
    loadPage delim pageSize pageIndex hidden (line :: rest) =
      .ok ⟨parseRecord delim line,
        (((rest.map (parseRecord delim)).drop (pageIndex * pageSize)).take pageSize).map
          (projectRow (parseRecord delim line) hidden),
        decide (pageSize <
          ((rest.map (parseRecord delim)).drop (pageIndex * pageSize)).length)⟩ := rfl

theorem loadPage_drop_beyond (delim : Char) (pageSize pageIndex : Nat) (hidden : Finset Nat)
    (line : String) (rest : List String) (h : rest.length ≤ pageIndex * pageSize) :
    loadPage delim pageSize pageIndex hidden (line :: rest) =
      .ok ⟨parseRecord delim line, [], false⟩ := by
  rw [loadPage_cons]
  have hd : (rest.map (parseRecord delim)).drop (pageIndex * pageSize) = [] := by
    apply List.drop_eq_nil_of_le
    simpa using h
  rw [hd]
  simp

end LazyCsv

namespace LazyCsv

/-! ## Claim theorems: page shape and boundaries -/

/-- C1: for every readable non-empty file (a successful load) and every
page size > 0 and page index, `_load_page` collects at most `page_size`
rows, and when it collects fewer than `page_size` rows it has hit end of
file, so `has_next_page` is false. -/
theorem loadPage_rows_le_pageSize (delim : Char) (pageSize pageIndex : Nat)
    (hidden : Finset Nat) (file : List String) (pr : PageResult)
    (hps : 0 < pageSize)
    (h : loadPage delim pageSize pageIndex hidden file = .ok pr) :
    pr.rows.length ≤ pageSize ∧ (pr.rows.length < pageSize → pr.hasNext = false) := by
  cases file with
  | nil => rw [loadPage_nil] at h; cases h
  | cons line rest =>
    rw [loadPage_cons] at h
    injection h with h
    subst h
    simp only [List.length_map, List.length_take, decide_eq_false_iff_not, not_lt]
    omega

/-- C1 witness: a concrete successful load at page size 2 with one row. -/
theorem loadPage_rows_le_pageSize_witness :
    (⟨["a", "b"], [["1", "2"]], false⟩ : PageResult).rows.length ≤ 2 ∧
    ((⟨["a", "b"], [["1", "2"]], false⟩ : PageResult).rows.length < 2 →
      (⟨["a", "b"], [["1", "2"]], false⟩ : PageResult).hasNext = false) :=
  loadPage_rows_le_pageSize ',' 2 0 ∅ ["a,b", "1,2"] ⟨["a", "b"], [["1", "2"]], false⟩
    (by decide) rfl

/-- C2: the concrete scenario: header `a,b,c`, data rows `1,2,3` / `4,5` /
`6,7,8,9`, comma delimiter, page size 2. Page 0 is `[1,2,3]`, `[4,5,""]`
(short row padded) with `has_next = true`; page 1 is `[6,7,8]` (the fourth
field dropped by the projection, which reads only header-length columns)
with `has_next = false`. -/
theorem loadPage_concrete_scenario :
    loadPage ',' 2 0 (∅ : Finset Nat) ["a,b,c", "1,2,3", "4,5", "6,7,8,9"] =
      .ok ⟨["a", "b", "c"], [["1", "2", "3"], ["4", "5", ""]], true⟩ ∧
    loadPage ',' 2 1 (∅ : Finset Nat) ["a,b,c", "1,2,3", "4,5", "6,7,8,9"] =
      .ok ⟨["a", "b", "c"], [["6", "7", "8"]], false⟩ :=
  ⟨rfl, rfl⟩

/-- C3 counterexample: the claim quantifies over *every* file, but for the
empty file (zero data rows, so `page_index * page_size ≥ 0` holds for any
indices) the page request does not succeed: `_load_page` fails while
reading the header. -/
theorem loadPage_beyond_counterexample :
    0 * 2 ≥ ([] : List String).length ∧
    loadPage ',' 2 0 (∅ : Finset Nat) ([] : List String) = .error .formatError :=
  ⟨Nat.le_refl 0, rfl⟩

/-- C3 amended: for every *non-empty* file and every page index such that
`page_index * page_size` is at least the number of data rows, the page
request succeeds and returns an empty rows list with `has_next = false`. -/
theorem loadPage_beyond_data_ok (delim : Char) (pageSize pageIndex : Nat)
    (hidden : Finset Nat) (line : String) (rest : List String)
    (h : rest.length ≤ pageIndex * pageSize) :
    loadPage delim pageSize pageIndex hidden (line :: rest) =
      .ok ⟨parseRecord delim line, [], false⟩ :=
  loadPage_drop_beyond delim pageSize pageIndex hidden line rest h

/-- C3 witness: a one-data-row file queried at page 2 of size 1. -/
theorem loadPage_beyond_data_ok_witness :
    loadPage ',' 1 2 (∅ : Finset Nat) ["a", "1"] =
      .ok ⟨parseRecord ',' "a", [], false⟩ :=
  loadPage_beyond_data_ok ',' 1 2 ∅ "a" ["1"] (by decide)

/-- C4: for every empty input file there is no header record, and the page
fetch fails with the format error, whatever the delimiter, page size, page
index and hidden set are. -/
theorem loadPage_empty_formatError (delim : Char) (pageSize pageIndex : Nat)
    (hidden : Finset Nat) :
    loadPage delim pageSize pageIndex hidden [] = .error .formatError := rfl

/-- C5: for a file with exactly `page_size` data rows, page 0 returns all
of them (projected) with `has_next = false`, and page 1 returns zero rows
with `has_next = false`. -/
theorem loadPage_exact_boundary (delim : Char) (hidden : Finset Nat) (n : Nat)
    (line : String) (rest : List String) (hn : 0 < n) (hlen : rest.length = n) :
    loadPage delim n 0 hidden (line :: rest) =
      .ok ⟨parseRecord delim line,
        (rest.map (parseRecord delim)).map (projectRow (parseRecord delim line) hidden),
        false⟩ ∧
    loadPage delim n 1 hidden (line :: rest) =
      .ok ⟨parseRecord delim line, [], false⟩ := by
  constructor
  · rw [loadPage_cons]
    rw [Nat.zero_mul, List.drop_zero]
    rw [List.take_of_length_le (by simp [hlen])]
    simp [hlen]
  · exact loadPage_drop_beyond delim n 1 hidden line rest (by omega)

/-- C5 witness: two data rows at page size 2. -/
theorem loadPage_exact_boundary_witness :
    loadPage ',' 2 0 (∅ : Finset Nat) ["h", "1", "2"] =
      .ok ⟨parseRecord ',' "h",
        (["1", "2"].map (parseRecord ',')).map (projectRow (parseRecord ',' "h") ∅),
        false⟩ ∧
    loadPage ',' 2 1 (∅ : Finset Nat) ["h", "1", "2"] =
      .ok ⟨parseRecord ',' "h", [], false⟩ :=
  loadPage_exact_boundary ',' ∅ 2 "h" ["1", "2"] (by decide) rfl

end LazyCsv

namespace LazyCsv

/-! ## Claim theorems: configuration handlers and navigation -/

theorem loadPageState_frame (file : List String) (s : ViewerState) :
    (loadPageState file s).pageSize = s.pageSize ∧
    (loadPageState file s).currentPage = s.currentPage ∧
    (loadPageState file s).delimiter = s.delimiter ∧
    (loadPageState file s).hiddenColumns = s.hiddenColumns := by
  unfold loadPageState
  cases h : loadPage s.delimiter s.pageSize.toNat s.currentPage.toNat s.hiddenColumns file <;>
    exact ⟨rfl, rfl, rfl, rfl⟩

/-- C6: for every non-positive (`some n`, `n ≤ 0`) or non-numeric (`none`)
page-size input, `_on_page_size_changed` shows the error box and returns
without touching the state: no scan runs and the stored page size (and all
other state) keeps its prior value. -/
theorem pageSize_invalid_rejected (file : List String) (s : ViewerState)
    (input : Option Int)
    (h : input = none ∨ ∃ n, input = some n ∧ n ≤ 0) :
    onPageSizeChanged file input s = (s, true) := by
  rcases h with h | ⟨n, hn, hle⟩
  · subst h; rfl
  · subst hn
    show (if n > 0 then
        (loadPageState file ⟨n, 0, s.delimiter, s.hiddenColumns, s.hasNextPage⟩, false)
      else (s, true)) = (s, true)
    rw [if_neg (by omega)]

/-- C6 witness: page size `-1` against the initial state is rejected. -/
theorem pageSize_invalid_rejected_witness :
    onPageSizeChanged ["a"] (some (-1)) initState = (initState, true) :=
  pageSize_invalid_rejected ["a"] initState (some (-1)) (Or.inr ⟨-1, rfl, by decide⟩)

theorem visibleColumns_filter_lt (header : List String) (hidden : Finset Nat) :
    visibleColumns header (hidden.filter (fun i => i < header.length)) =
      visibleColumns header hidden := by
  unfold visibleColumns
  apply List.filter_congr
  intro i hi
  rw [List.mem_range] at hi
  simp [Finset.mem_filter, hi]

/-- C7: hidden-column indices outside `[0, header.length)` are silently
ignored: the visible columns and every projected row computed from a hidden
set equal the ones computed from its restriction to in-range indices (and
both computations are total functions, so no error can arise). -/
theorem hidden_out_of_range_ignored (header : List String) (hidden : Finset Nat) :
    visibleColumns header hidden =
      visibleColumns header (hidden.filter (fun i => i < header.length)) ∧
    ∀ row, projectRow header hidden row =
      projectRow header (hidden.filter (fun i => i < header.length)) row := by
  refine ⟨(visibleColumns_filter_lt header hidden).symm, fun row => ?_⟩
  unfold projectRow
  rw [visibleColumns_filter_lt]

/-- C10: for every valid page size `n > 0`, `_on_page_size_changed` signals
no error, stores `n` as the page size, resets the current page to 0, and
leaves the delimiter and the hidden-column set unchanged (the reload only
refreshes `has_next_page`). -/
theorem pageSize_valid_frame (file : List String) (s : ViewerState) (n : Int)
    (h : 0 < n) :
    (onPageSizeChanged file (some n) s).2 = false ∧
    (onPageSizeChanged file (some n) s).1.pageSize = n ∧
    (onPageSizeChanged file (some n) s).1.currentPage = 0 ∧
    (onPageSizeChanged file (some n) s).1.delimiter = s.delimiter ∧
    (onPageSizeChanged file (some n) s).1.hiddenColumns = s.hiddenColumns := by
  have hred : onPageSizeChanged file (some n) s =
      (loadPageState file ⟨n, 0, s.delimiter, s.hiddenColumns, s.hasNextPage⟩, false) := by
    show (if n > 0 then
        (loadPageState file ⟨n, 0, s.delimiter, s.hiddenColumns, s.hasNextPage⟩, false)
      else (s, true)) = _
    rw [if_pos h]
  rw [hred]
  obtain ⟨h1, h2, h3, h4⟩ :=
    loadPageState_frame file ⟨n, 0, s.delimiter, s.hiddenColumns, s.hasNextPage⟩
  exact ⟨rfl, h1, h2, h3, h4⟩

/-- C10 witness: applying page size 5 to the initial state. -/
theorem pageSize_valid_frame_witness :
    (onPageSizeChanged ["a"] (some 5) initState).2 = false ∧
    (onPageSizeChanged ["a"] (some 5) initState).1.pageSize = 5 ∧
    (onPageSizeChanged ["a"] (some 5) initState).1.currentPage = 0 ∧
    (onPageSizeChanged ["a"] (some 5) initState).1.delimiter = initState.delimiter ∧
    (onPageSizeChanged ["a"] (some 5) initState).1.hiddenColumns = initState.hiddenColumns :=
  pageSize_valid_frame ["a"] initState 5 (by decide)

theorem reachable_currentPage_nonneg (file : List String) (s : ViewerState)
    (h : Reachable file s) : 0 ≤ s.currentPage := by
  induction h with
  | init =>
    rw [(loadPageState_frame file initState).2.1]
    exact le_refl 0
  | @next s' hs ih =>
    unfold nextPage
    by_cases hb : s'.hasNextPage
    · rw [if_pos hb,
        (loadPageState_frame file
          ⟨s'.pageSize, s'.currentPage + 1, s'.delimiter, s'.hiddenColumns, s'.hasNextPage⟩).2.1]
      show 0 ≤ s'.currentPage + 1
      omega
    · rw [if_neg hb]; exact ih
  | @prev s' hs ih =>
    unfold prevPage
    by_cases hb : s'.currentPage > 0
    · rw [if_pos hb,
        (loadPageState_frame file
          ⟨s'.pageSize, s'.currentPage - 1, s'.delimiter, s'.hiddenColumns, s'.hasNextPage⟩).2.1]
      show 0 ≤ s'.currentPage - 1
      omega
    · rw [if_neg hb]; exact ih

/-- C9: in every state reachable from the freshly opened viewer by
`next_page` / `prev_page` clicks, the current page index is nonnegative;
`prev_page` at page index 0 leaves the index unchanged, and `next_page`
with `has_next_page` unset leaves it unchanged. -/
theorem currentPage_nonneg_invariant (file : List String) (s : ViewerState)
    (h : Reachable file s) :
    0 ≤ s.currentPage ∧
    (s.currentPage = 0 → (prevPage file s).currentPage = s.currentPage) ∧
    (s.hasNextPage = false → (nextPage file s).currentPage = s.currentPage) := by
  refine ⟨reachable_currentPage_nonneg file s h, fun h0 => ?_, fun hn => ?_⟩
  · unfold prevPage
    rw [if_neg (by omega)]
  · unfold nextPage
    rw [if_neg (by simp [hn])]

/-- C9 witness: the state right after opening a one-line file. -/
theorem currentPage_nonneg_invariant_witness :
    0 ≤ (loadPageState ["a"] initState).currentPage ∧
    ((loadPageState ["a"] initState).currentPage = 0 →
      (prevPage ["a"] (loadPageState ["a"] initState)).currentPage =
        (loadPageState ["a"] initState).currentPage) ∧
    ((loadPageState ["a"] initState).hasNextPage = false →
      (nextPage ["a"] (loadPageState ["a"] initState)).currentPage =
        (loadPageState ["a"] initState).currentPage) :=
  currentPage_nonneg_invariant ["a"] (loadPageState ["a"] initState) Reachable.init

end LazyCsv

namespace LazyCsv

/-! ## Claim theorem: quoting takes precedence over splitting -/

theorem step_start_quote (d : Char) (cs field : List Char) (fields : List (List Char)) :
    parseLineAux d ('"' :: cs) .startField field fields =
      parseLineAux d cs .inQuoted [] fields := rfl

theorem step_inQuoted_quote (d : Char) (cs field : List Char) (fields : List (List Char)) :
    parseLineAux d ('"' :: cs) .inQuoted field fields =
      parseLineAux d cs .quoteInQuoted field fields := rfl

theorem step_quoteInQuoted_quote (d : Char) (cs field : List Char) (fields : List (List Char)) :
    parseLineAux d ('"' :: cs) .quoteInQuoted field fields =
      parseLineAux d cs .inQuoted (field ++ ['"']) fields := rfl

theorem step_inQuoted_other (d c : Char) (hc : c ≠ '"') (cs field : List Char)
    (fields : List (List Char)) :
    parseLineAux d (c :: cs) .inQuoted field fields =
      parseLineAux d cs .inQuoted (field ++ [c]) fields := by
  simp only [parseLineAux]
  rw [if_neg hc]

theorem step_quoteInQuoted_delim (d : Char) (hd : d ≠ '"') (cs field : List Char)
    (fields : List (List Char)) :
    parseLineAux d (d :: cs) .quoteInQuoted field fields =
      parseLineAux d cs .startField [] (fields ++ [field]) := by
  simp only [parseLineAux]
  rw [if_neg hd]
  simp

theorem parseLineAux_encodeContent (d : Char) (cs : List Char) :
    ∀ (rest field : List Char) (fields : List (List Char)),
      parseLineAux d (encodeContent cs ++ '"' :: rest) .inQuoted field fields =
        parseLineAux d rest .quoteInQuoted (field ++ cs) fields := by
  induction cs with
  | nil => intro rest field fields; simp [encodeContent, step_inQuoted_quote]
  | cons c cs ih =>
    intro rest field fields
    have hshape : encodeContent (c :: cs) ++ '"' :: rest =
        escQuote c ++ (encodeContent cs ++ '"' :: rest) := by
      simp [encodeContent, List.append_assoc]
    rw [hshape]
    by_cases hc : c = '"'
    · subst hc
      show parseLineAux d ('"' :: '"' :: (encodeContent cs ++ '"' :: rest))
          .inQuoted field fields = _
      rw [step_inQuoted_quote, step_quoteInQuoted_quote, ih]
      simp
    · rw [show escQuote c = [c] from if_neg hc]
      show parseLineAux d (c :: (encodeContent cs ++ '"' :: rest)) .inQuoted field fields = _
      rw [step_inQuoted_other d c hc, ih]
      simp

theorem parseLineAux_encodeRecord (d : Char) (hd : d ≠ '"') (fs : List (List Char)) :
    ∀ (f : List Char) (fields : List (List Char)),
      parseLineAux d (encodeRecord d (f :: fs)) .startField [] fields = fields ++ f :: fs := by
  induction fs with
  | nil =>
    intro f fields
    show parseLineAux d ('"' :: (encodeContent f ++ ['"'])) .startField [] fields = _
    rw [step_start_quote, parseLineAux_encodeContent d f [] []]
    simp [parseLineAux]
  | cons g fs ih =>
    intro f fields
    have hshape : encodeRecord d (f :: g :: fs) =
        '"' :: (encodeContent f ++ '"' :: d :: encodeRecord d (g :: fs)) := by
      simp [encodeRecord, encodeField, List.append_assoc]
    rw [hshape, step_start_quote, parseLineAux_encodeContent,
      step_quoteInQuoted_delim d hd, ih]
    simp

/-- C8: quoting takes precedence over splitting. For every list of field
contents — each content may freely embed any characters, in particular the
active delimiter — the record writing every field in quoted form with
doubled-quote escaping parses back, under any delimiter of the enumerated
set, to exactly those contents: an embedded delimiter never fractures a
quoted field. -/
theorem quoted_delimiter_single_field (d : Char) (fs : List (List Char))
    (hd : d ∈ delimiterOptions) :
    parseLine d (encodeRecord d fs) = fs := by
  have hq : d ≠ '"' := by
    rw [show delimiterOptions = [',', '\t', ';', '|', ' '] from rfl] at hd
    simp only [List.mem_cons, List.mem_singleton] at hd
    rcases hd with rfl | rfl | rfl | rfl | rfl | h
    · decide
    · decide
    · decide
    · decide
    · decide
    · simp at h
  cases fs with
  | nil => rfl
  | cons f fs =>
    unfold parseLine
    rw [parseLineAux_encodeRecord d hq fs f []]
    simp

/-- C8 witness: field `a,b` (embedding the comma) followed by field `c`,
parsed with the comma as active delimiter: the quoted field stays whole. -/
theorem quoted_delimiter_single_field_witness :
    parseLine ',' (encodeRecord ',' [['a', ',', 'b'], ['c']]) = [['a', ',', 'b'], ['c']] :=
  quoted_delimiter_single_field ',' [['a', ',', 'b'], ['c']] (by decide)

end LazyCsv
